import Mathlib

/-!
Verification development for the `cv-helper` repository
(`compose_images.py` and `crop_objects.py`).

The Python sources are shallowly embedded: PIL images become a structure with
width, height, color mode and a pixel function; Python ints become `ℤ`/`ℕ`
with Python's `//` rendered as floor division; Python float arithmetic is
modelled over `ℚ` where no claim depends on rounding and by an exact model of
IEEE-754 binary64 round-to-nearest where rounding is the point; the mutable
PIL image objects of `composite_images` become an explicit store of image
values; `random.randint` becomes an abstract sampler constrained to its
documented inclusive range.
-/

set_option maxHeartbeats 1000000
set_option linter.unusedVariables false

namespace CvHelper

/-- A pixel with red, green, blue and alpha channels, as in PIL RGBA rasters. -/
structure Pixel where
  r : ℕ
  g : ℕ
  b : ℕ
  a : ℕ
deriving DecidableEq

/-- The PIL color modes this program distinguishes: both scripts branch only
on whether an image's mode is `"RGBA"`. -/
inductive Mode where
  | RGB
  | RGBA
deriving DecidableEq

/-- A PIL image: dimensions, color mode, and pixel contents.  `pix` is read at
coordinates `(x, y)` with `0 ≤ x < width` and `0 ≤ y < height`. -/
@[ext]
structure PILImage where
  width : ℕ
  height : ℕ
  mode : Mode
  pix : ℕ → ℕ → Pixel

/-- PIL `Image.resize`: the output has exactly the requested size.  The LANCZOS
resampling kernel works in floating point and no claim depends on the resampled
pixel values, so pixel contents are modelled by plain coordinate scaling; the
output size and mode are modelled exactly. -/
def PILImage.resize (image : PILImage) (w h : ℕ) : PILImage :=
  { width := w, height := h, mode := image.mode,
    pix := fun x y => image.pix (x * image.width / w) (y * image.height / h) }

/-- PIL `Image.crop` with box `(left, top, right, bottom)`, right/bottom
exclusive: the output has size `(right - left, bottom - top)` and reads the
source at the translated coordinates. -/
def PILImage.crop (image : PILImage) (box : ℤ × ℤ × ℤ × ℤ) : PILImage :=
  { width := (box.2.2.1 - box.1).toNat, height := (box.2.2.2 - box.2.1).toNat,
    mode := image.mode,
    pix := fun x y => image.pix ((x : ℤ) + box.1).toNat ((y : ℤ) + box.2.1).toNat }

/-- PIL `Image.convert("RGBA")`: promote to a mode with an alpha channel; the
pixels of an image without transparency become fully opaque (alpha 255). -/
def PILImage.convertRGBA (image : PILImage) : PILImage :=
  { image with mode := Mode.RGBA, pix := fun x y => { image.pix x y with a := 255 } }

/-- PIL `Image.convert("RGB")`: flatten to an opaque image (the stored alpha
field of the resulting pixels is normalised to 255). -/
def PILImage.convertRGB (image : PILImage) : PILImage :=
  { image with mode := Mode.RGB, pix := fun x y => { image.pix x y with a := 255 } }

/-- `compose_images.crop_and_resize_to_target` (lines 35-61).  Python float
arithmetic is modelled over `ℚ` (`int(...)` on a nonnegative float is the
floor); only the branch structure and the output size matter for the claim
below, and the output size is the same in every branch. -/
def crop_and_resize_to_target (image : PILImage) (target_width target_height : ℕ) : PILImage :=
  let target_ratio : ℚ := (target_width : ℚ) / (target_height : ℚ)
  let img_ratio : ℚ := (image.width : ℚ) / (image.height : ℚ)
  if |img_ratio - target_ratio| < 1 / 1000 then
    image.resize target_width target_height
  else if img_ratio > target_ratio then
    let new_width : ℕ := ((image.height : ℚ) * target_ratio).floor.toNat
    let left : ℕ := (image.width - new_width) / 2
    (image.crop ((left : ℤ), 0, (left : ℤ) + (new_width : ℤ), (image.height : ℤ))).resize
      target_width target_height
  else
    let new_height : ℕ := ((image.width : ℚ) / target_ratio).floor.toNat
    let top : ℕ := (image.height - new_height) / 2
    (image.crop (0, (top : ℤ), (image.width : ℤ), (top : ℤ) + (new_height : ℤ))).resize
      target_width target_height

/-- The configuration fields consumed by `calculate_valid_position`. -/
structure ComposeConfig where
  output_width : ℤ
  output_height : ℤ
  object_x_min : ℤ
  object_x_max : ℤ
  object_y_max : ℤ

/-- `compose_images.calculate_valid_position` (lines 74-110).  `random.randint`
is modelled by an abstract sampler `rand`; every sampler returning a value in
the requested inclusive range (as `random.randint` does) is admitted.  Python
`//` on ints is floor division, `Int.fdiv`. -/
def calculate_valid_position (rand : ℤ → ℤ → ℤ) (obj_width obj_height : ℤ)
    (config : ComposeConfig) : ℤ × ℤ :=
  let output_width := config.output_width
  let output_height := config.output_height
  let x_min := config.object_x_min
  let x_max := config.object_x_max
  let y_max := config.object_y_max
  let half_width := obj_width.fdiv 2
  let half_height := obj_height.fdiv 2
  let valid_x_min := max x_min half_width
  let valid_x_max := min x_max (output_width - half_width)
  let valid_y_min := half_height
  let valid_y_max := min y_max (output_height - half_height)
  if valid_x_min > valid_x_max ∨ valid_y_min > valid_y_max then
    ((x_min + x_max).fdiv 2, y_max.fdiv 2)
  else
    (rand valid_x_min valid_x_max, rand valid_y_min valid_y_max)

/-- Claim C1: whenever both derived center ranges are non-inverted, the center
returned by `calculate_valid_position` keeps the object inside the canvas:
`center_x - objW/2 ≥ 0`, `center_x + objW/2 ≤ canvas_width`, and the analogous
bounds for y, where `/2` is the integer floor division (`//`) used by both the
solver and the paste origin. -/
theorem calculate_valid_position_fits (rand : ℤ → ℤ → ℤ)
    (hrand : ∀ a b : ℤ, a ≤ b → a ≤ rand a b ∧ rand a b ≤ b)
    (obj_width obj_height : ℤ) (config : ComposeConfig)
    (hx : max config.object_x_min (obj_width.fdiv 2) ≤
          min config.object_x_max (config.output_width - obj_width.fdiv 2))
    (hy : obj_height.fdiv 2 ≤
          min config.object_y_max (config.output_height - obj_height.fdiv 2)) :
    0 ≤ (calculate_valid_position rand obj_width obj_height config).1 - obj_width.fdiv 2 ∧
    (calculate_valid_position rand obj_width obj_height config).1 + obj_width.fdiv 2 ≤
      config.output_width ∧
    0 ≤ (calculate_valid_position rand obj_width obj_height config).2 - obj_height.fdiv 2 ∧
    (calculate_valid_position rand obj_width obj_height config).2 + obj_height.fdiv 2 ≤
      config.output_height := by
  obtain ⟨hx1, hx2⟩ := hrand _ _ hx
  obtain ⟨hy1, hy2⟩ := hrand _ _ hy
  simp only [calculate_valid_position]
  rw [if_neg (by push_neg; exact ⟨hx, hy⟩)]
  dsimp only
  exact ⟨by omega, by omega, by omega, by omega⟩

/-- The deterministic sampler that always returns the low end of the range. -/
def pickLo : ℤ → ℤ → ℤ := fun a _ => a

/-- The configuration of the spec's scenarios: canvas 1280x720, center-x range
[320, 960], center-y bound 360. -/
def cfg1280 : ComposeConfig :=
  { output_width := 1280, output_height := 720,
    object_x_min := 320, object_x_max := 960, object_y_max := 360 }

theorem calculate_valid_position_fits_witness :
    (∀ a b : ℤ, a ≤ b → a ≤ pickLo a b ∧ pickLo a b ≤ b) ∧
    max cfg1280.object_x_min ((100 : ℤ).fdiv 2) ≤
      min cfg1280.object_x_max (cfg1280.output_width - (100 : ℤ).fdiv 2) ∧
    (100 : ℤ).fdiv 2 ≤
      min cfg1280.object_y_max (cfg1280.output_height - (100 : ℤ).fdiv 2) ∧
    (0 ≤ (calculate_valid_position pickLo 100 100 cfg1280).1 - (100 : ℤ).fdiv 2 ∧
     (calculate_valid_position pickLo 100 100 cfg1280).1 + (100 : ℤ).fdiv 2 ≤
       cfg1280.output_width ∧
     0 ≤ (calculate_valid_position pickLo 100 100 cfg1280).2 - (100 : ℤ).fdiv 2 ∧
     (calculate_valid_position pickLo 100 100 cfg1280).2 + (100 : ℤ).fdiv 2 ≤
       cfg1280.output_height) :=
  ⟨fun a b h => ⟨le_refl a, h⟩, by decide, by decide,
   calculate_valid_position_fits pickLo (fun a b h => ⟨le_refl a, h⟩) 100 100 cfg1280
     (by decide) (by decide)⟩

/-- Claim C2: when either derived center range is inverted (`min > max`), the
function raises nothing and deterministically returns the fallback
`((x_min + x_max) // 2, y_max // 2)`, for every sampler (the sampler is never
consulted on this path). -/
theorem calculate_valid_position_fallback (rand : ℤ → ℤ → ℤ)
    (obj_width obj_height : ℤ) (config : ComposeConfig)
    (h : max config.object_x_min (obj_width.fdiv 2) >
           min config.object_x_max (config.output_width - obj_width.fdiv 2) ∨
         obj_height.fdiv 2 >
           min config.object_y_max (config.output_height - obj_height.fdiv 2)) :
    calculate_valid_position rand obj_width obj_height config =
      ((config.object_x_min + config.object_x_max).fdiv 2,
        config.object_y_max.fdiv 2) := by
  simp only [calculate_valid_position]
  rw [if_pos h]

theorem calculate_valid_position_fallback_witness :
    (max cfg1280.object_x_min ((800 : ℤ).fdiv 2) >
       min cfg1280.object_x_max (cfg1280.output_width - (800 : ℤ).fdiv 2) ∨
     (800 : ℤ).fdiv 2 >
       min cfg1280.object_y_max (cfg1280.output_height - (800 : ℤ).fdiv 2)) ∧
    calculate_valid_position pickLo 800 800 cfg1280 = (640, 180) := by
  refine ⟨by decide, ?_⟩
  rw [calculate_valid_position_fallback pickLo 800 800 cfg1280 (by decide)]
  decide

/-- Claim C3: for every input image of positive dimensions and positive target
width and height, `crop_and_resize_to_target` returns an image of exactly the
target size, regardless of the input aspect ratio. -/
theorem crop_and_resize_to_target_size (image : PILImage) (target_width target_height : ℕ)
    (hiw : 0 < image.width) (hih : 0 < image.height)
    (hw : 0 < target_width) (hh : 0 < target_height) :
    (crop_and_resize_to_target image target_width target_height).width = target_width ∧
    (crop_and_resize_to_target image target_width target_height).height = target_height := by
  simp only [crop_and_resize_to_target, PILImage.resize]
  split
  · exact ⟨rfl, rfl⟩
  · split
    · exact ⟨rfl, rfl⟩
    · exact ⟨rfl, rfl⟩

/-- A concrete 1920x1080 RGB test image. -/
def bg1920 : PILImage :=
  { width := 1920, height := 1080, mode := Mode.RGB, pix := fun _ _ => ⟨10, 20, 30, 255⟩ }

theorem crop_and_resize_to_target_size_witness :
    0 < bg1920.width ∧ 0 < bg1920.height ∧ 0 < 1280 ∧ 0 < 720 ∧
    ((crop_and_resize_to_target bg1920 1280 720).width = 1280 ∧
     (crop_and_resize_to_target bg1920 1280 720).height = 720) :=
  ⟨by decide, by decide, by decide, by decide,
   crop_and_resize_to_target_size bg1920 1280 720 (by decide) (by decide) (by decide)
     (by decide)⟩

/-- The coercion both scripts apply before touching the alpha channel:
`if image.mode != "RGBA": image = image.convert("RGBA")`. -/
def toRGBA (image : PILImage) : PILImage :=
  if image.mode ≠ Mode.RGBA then image.convertRGBA else image

/-- The pixels of `image` whose alpha channel is nonzero (the content seen by
`alpha.getbbox()` after `image.split()[3]`). -/
def contentSet (image : PILImage) : Finset (ℕ × ℕ) :=
  (Finset.range image.width ×ˢ Finset.range image.height).filter
    (fun p => 0 < (image.pix p.1 p.2).a)

/-- PIL `Image.getbbox` applied to the alpha band: the minimal box enclosing
every pixel with nonzero alpha, right/bottom exclusive; `none` when the image
is fully transparent. -/
def alphaGetbbox (image : PILImage) : Option (ℕ × ℕ × ℕ × ℕ) :=
  if h : (contentSet image).Nonempty then
    some ((contentSet image).inf' h Prod.fst, (contentSet image).inf' h Prod.snd,
          (contentSet image).sup' h Prod.fst + 1, (contentSet image).sup' h Prod.snd + 1)
  else none

/-- The bounding box `crop_objects.crop_to_content` (lines 19-57) actually
crops to: the alpha bounding box, expanded by `padding` per side and clamped to
`[0, width]` / `[0, height]` when `padding > 0`; `none` for a fully transparent
image. -/
def content_bbox (image : PILImage) (padding : ℤ) : Option (ℤ × ℤ × ℤ × ℤ) :=
  let img := toRGBA image
  match alphaGetbbox img with
  | none => none
  | some (left, top, right, bottom) =>
    if 0 < padding then
      some (max 0 ((left : ℤ) - padding), max 0 ((top : ℤ) - padding),
            min (img.width : ℤ) ((right : ℤ) + padding),
            min (img.height : ℤ) ((bottom : ℤ) + padding))
    else
      some ((left : ℤ), (top : ℤ), (right : ℤ), (bottom : ℤ))

/-- `crop_objects.crop_to_content` (lines 19-57): coerce to RGBA, find the
alpha bounding box, return the image as-is (with a warning) when it is fully
transparent, otherwise crop to the (optionally padded and clamped) box. -/
def crop_to_content (image : PILImage) (padding : ℤ) : PILImage :=
  let img := toRGBA image
  match content_bbox image padding with
  | none => img
  | some box => img.crop box

theorem toRGBA_mode (image : PILImage) : (toRGBA image).mode = Mode.RGBA := by
  unfold toRGBA
  split
  · rfl
  · next h => simpa using h

theorem toRGBA_width (image : PILImage) : (toRGBA image).width = image.width := by
  unfold toRGBA
  split <;> rfl

theorem toRGBA_height (image : PILImage) : (toRGBA image).height = image.height := by
  unfold toRGBA
  split <;> rfl

theorem mem_contentSet {image : PILImage} {p : ℕ × ℕ} :
    p ∈ contentSet image ↔
      p.1 < image.width ∧ p.2 < image.height ∧ 0 < (image.pix p.1 p.2).a := by
  simp [contentSet, Finset.mem_filter, Finset.mem_product, Finset.mem_range, and_assoc]

/-- Basic geometry of the raw alpha bounding box: it is nondegenerate and lies
inside the image. -/
theorem alphaGetbbox_bounds {image : PILImage} {left top right bottom : ℕ}
    (hbox : alphaGetbbox image = some (left, top, right, bottom)) :
    left < right ∧ top < bottom ∧ right ≤ image.width ∧ bottom ≤ image.height := by
  unfold alphaGetbbox at hbox
  split at hbox
  · next h =>
    simp only [Option.some.injEq, Prod.mk.injEq] at hbox
    obtain ⟨hl, ht, hr, hb⟩ := hbox
    obtain ⟨q, hq, hqx⟩ := Finset.exists_mem_eq_sup' h Prod.fst
    obtain ⟨q', hq', hqy⟩ := Finset.exists_mem_eq_sup' h Prod.snd
    have h1 : (contentSet image).inf' h Prod.fst ≤ q.1 := Finset.inf'_le _ hq
    have h2 : (contentSet image).inf' h Prod.snd ≤ q'.2 := Finset.inf'_le _ hq'
    have hqw : q.1 < image.width := (mem_contentSet.mp hq).1
    have hqh : q'.2 < image.height := (mem_contentSet.mp hq').2.1
    subst hl ht hr hb
    omega
  · exact absurd hbox (by simp)

/-- Claim C5: for every image with some nonzero-alpha pixel and every
padding ≥ 0, the box `crop_to_content` crops to stays inside
`[0, width] × [0, height]`: clamping keeps padding from pushing any edge
outside the source image. -/
theorem content_bbox_within (image : PILImage) (padding left top right bottom : ℤ)
    (hpad : 0 ≤ padding)
    (hbox : content_bbox image padding = some (left, top, right, bottom)) :
    0 ≤ left ∧ left ≤ right ∧ right ≤ image.width ∧
    0 ≤ top ∧ top ≤ bottom ∧ bottom ≤ image.height := by
  simp only [content_bbox] at hbox
  split at hbox
  · exact absurd hbox (by simp)
  · next l₀ t₀ r₀ b₀ halpha =>
    obtain ⟨h1, h2, h3, h4⟩ := alphaGetbbox_bounds halpha
    rw [toRGBA_width] at h3
    rw [toRGBA_height] at h4
    rw [toRGBA_width, toRGBA_height] at hbox
    split at hbox
    · next hp =>
      simp only [Option.some.injEq, Prod.mk.injEq] at hbox
      obtain ⟨hl, ht, hr, hb⟩ := hbox
      subst hl ht hr hb
      refine ⟨le_max_left _ _, ?_, min_le_left _ _, le_max_left _ _, ?_, min_le_left _ _⟩
      · omega
      · omega
    · next hp =>
      simp only [Option.some.injEq, Prod.mk.injEq] at hbox
      obtain ⟨hl, ht, hr, hb⟩ := hbox
      subst hl ht hr hb
      exact ⟨by positivity, by exact_mod_cast Nat.le_of_lt h1, by exact_mod_cast h3,
             by positivity, by exact_mod_cast Nat.le_of_lt h2, by exact_mod_cast h4⟩

/-- A 3x3 RGBA test image whose only content is the center pixel. -/
def dot3 : PILImage :=
  { width := 3, height := 3, mode := Mode.RGBA,
    pix := fun x y => if x = 1 ∧ y = 1 then ⟨9, 9, 9, 200⟩ else ⟨0, 0, 0, 0⟩ }

theorem content_bbox_within_witness :
    (0 : ℤ) ≤ 5 ∧ content_bbox dot3 5 = some (0, 0, 3, 3) ∧
    (0 ≤ (0 : ℤ) ∧ (0 : ℤ) ≤ 3 ∧ (3 : ℤ) ≤ dot3.width ∧
     0 ≤ (0 : ℤ) ∧ (0 : ℤ) ≤ 3 ∧ (3 : ℤ) ≤ dot3.height) :=
  ⟨by decide, by decide,
   content_bbox_within dot3 5 0 0 3 3 (by decide) (by decide)⟩

/-- Claim C7: a fully transparent image (RGBA, every pixel's alpha zero) is
passed through `crop_to_content` unchanged for every padding — the degenerate
case is a warning plus identity, never an exception (the embedding is total on
this path, mirroring the code's early `return image`). -/
theorem crop_to_content_transparent (image : PILImage) (padding : ℤ)
    (hmode : image.mode = Mode.RGBA)
    (htrans : ∀ x, x < image.width → ∀ y, y < image.height → (image.pix x y).a = 0) :
    crop_to_content image padding = image := by
  have hid : toRGBA image = image := by
    unfold toRGBA
    rw [if_neg]
    simp [hmode]
  have hempty : contentSet image = ∅ := by
    apply Finset.eq_empty_of_forall_not_mem
    intro p hp
    obtain ⟨hx, hy, ha⟩ := mem_contentSet.mp hp
    have := htrans p.1 hx p.2 hy
    omega
  have hnone : alphaGetbbox image = none := by
    unfold alphaGetbbox
    rw [dif_neg]
    simp [hempty]
  simp only [crop_to_content, content_bbox, hid, hnone]

/-- A 2x2 RGBA test image that is fully transparent. -/
def clear2 : PILImage :=
  { width := 2, height := 2, mode := Mode.RGBA, pix := fun _ _ => ⟨0, 0, 0, 0⟩ }

theorem crop_to_content_transparent_witness :
    clear2.mode = Mode.RGBA ∧
    (∀ x, x < clear2.width → ∀ y, y < clear2.height → (clear2.pix x y).a = 0) ∧
    crop_to_content clear2 3 = clear2 :=
  ⟨rfl, by decide, crop_to_content_transparent clear2 3 rfl (by decide)⟩

theorem toRGBA_of_rgba {image : PILImage} (hmode : image.mode = Mode.RGBA) :
    toRGBA image = image := by
  unfold toRGBA
  rw [if_neg]
  simp [hmode]

theorem crop_full (image : PILImage) :
    image.crop (0, 0, (image.width : ℤ), (image.height : ℤ)) = image := by
  apply PILImage.ext
  · simp [PILImage.crop]
  · simp [PILImage.crop]
  · rfl
  · funext x y
    simp [PILImage.crop]

/-- Re-extracting the alpha bounding box after cropping to it yields the
cropped image's full extent. -/
theorem alphaGetbbox_crop {image : PILImage} {left top right bottom : ℕ}
    (hbox : alphaGetbbox image = some (left, top, right, bottom)) :
    alphaGetbbox (image.crop ((left : ℤ), (top : ℤ), (right : ℤ), (bottom : ℤ))) =
      some (0, 0, right - left, bottom - top) := by
  obtain ⟨hlr, htb, hrw, hbh⟩ := alphaGetbbox_bounds hbox
  unfold alphaGetbbox at hbox
  split at hbox
  case isFalse => exact absurd hbox (by simp)
  case isTrue h =>
  simp only [Option.some.injEq, Prod.mk.injEq] at hbox
  obtain ⟨hl, ht, hr, hb⟩ := hbox
  have hCw : (image.crop ((left : ℤ), (top : ℤ), (right : ℤ), (bottom : ℤ))).width
      = right - left := by
    simp only [PILImage.crop]
    omega
  have hCh : (image.crop ((left : ℤ), (top : ℤ), (right : ℤ), (bottom : ℤ))).height
      = bottom - top := by
    simp only [PILImage.crop]
    omega
  have hCpix : ∀ x y : ℕ,
      (image.crop ((left : ℤ), (top : ℤ), (right : ℤ), (bottom : ℤ))).pix x y
        = image.pix (x + left) (y + top) := by
    intro x y
    have e1 : ((x : ℤ) + (left : ℤ)).toNat = x + left := by omega
    have e2 : ((y : ℤ) + (top : ℤ)).toNat = y + top := by omega
    simp [PILImage.crop, e1, e2]
  have hmemS : ∀ p, p ∈ contentSet image →
      left ≤ p.1 ∧ p.1 ≤ right - 1 ∧ top ≤ p.2 ∧ p.2 ≤ bottom - 1 := by
    intro p hp
    have i1 : (contentSet image).inf' h Prod.fst ≤ p.1 := Finset.inf'_le _ hp
    have i2 : p.1 ≤ (contentSet image).sup' h Prod.fst := Finset.le_sup' _ hp
    have i3 : (contentSet image).inf' h Prod.snd ≤ p.2 := Finset.inf'_le _ hp
    have i4 : p.2 ≤ (contentSet image).sup' h Prod.snd := Finset.le_sup' _ hp
    omega
  have hmem : ∀ x y : ℕ,
      (x, y) ∈ contentSet (image.crop ((left : ℤ), (top : ℤ), (right : ℤ), (bottom : ℤ)))
        ↔ (x + left, y + top) ∈ contentSet image := by
    intro x y
    rw [mem_contentSet, mem_contentSet, hCw, hCh, hCpix]
    constructor
    · rintro ⟨h1, h2, h3⟩
      exact ⟨by omega, by omega, h3⟩
    · rintro ⟨h1, h2, h3⟩
      have hb1 := hmemS (x + left, y + top) (mem_contentSet.mpr ⟨h1, h2, h3⟩)
      exact ⟨by omega, by omega, h3⟩
  obtain ⟨pl, hpl, hple⟩ := Finset.exists_mem_eq_inf' h Prod.fst
  obtain ⟨pt, hpt, hpte⟩ := Finset.exists_mem_eq_inf' h Prod.snd
  obtain ⟨pr, hpr, hpre⟩ := Finset.exists_mem_eq_sup' h Prod.fst
  obtain ⟨pb, hpb, hpbe⟩ := Finset.exists_mem_eq_sup' h Prod.snd
  have hbl := hmemS pl hpl
  have hbt := hmemS pt hpt
  have hbr := hmemS pr hpr
  have hbb := hmemS pb hpb
  have m1 : ((0 : ℕ), pl.2 - top)
      ∈ contentSet (image.crop ((left : ℤ), (top : ℤ), (right : ℤ), (bottom : ℤ))) := by
    rw [hmem]
    have e1 : 0 + left = pl.1 := by omega
    have e2 : pl.2 - top + top = pl.2 := by omega
    rw [e1, e2]
    exact hpl
  have m2 : (pt.1 - left, (0 : ℕ))
      ∈ contentSet (image.crop ((left : ℤ), (top : ℤ), (right : ℤ), (bottom : ℤ))) := by
    rw [hmem]
    have e1 : pt.1 - left + left = pt.1 := by omega
    have e2 : 0 + top = pt.2 := by omega
    rw [e1, e2]
    exact hpt
  have m3 : (pr.1 - left, pr.2 - top)
      ∈ contentSet (image.crop ((left : ℤ), (top : ℤ), (right : ℤ), (bottom : ℤ))) := by
    rw [hmem]
    have e1 : pr.1 - left + left = pr.1 := by omega
    have e2 : pr.2 - top + top = pr.2 := by omega
    rw [e1, e2]
    exact hpr
  have m4 : (pb.1 - left, pb.2 - top)
      ∈ contentSet (image.crop ((left : ℤ), (top : ℤ), (right : ℤ), (bottom : ℤ))) := by
    rw [hmem]
    have e1 : pb.1 - left + left = pb.1 := by omega
    have e2 : pb.2 - top + top = pb.2 := by omega
    rw [e1, e2]
    exact hpb
  have hne : (contentSet (image.crop ((left : ℤ), (top : ℤ), (right : ℤ), (bottom : ℤ)))).Nonempty :=
    ⟨_, m1⟩
  unfold alphaGetbbox
  rw [dif_pos hne]
  have g1 : (contentSet (image.crop ((left : ℤ), (top : ℤ), (right : ℤ), (bottom : ℤ)))).inf'
      hne Prod.fst = 0 := by
    have h0 : (contentSet (image.crop ((left : ℤ), (top : ℤ), (right : ℤ), (bottom : ℤ)))).inf'
        hne Prod.fst ≤ ((0 : ℕ), pl.2 - top).1 := Finset.inf'_le _ m1
    simpa using h0
  have g2 : (contentSet (image.crop ((left : ℤ), (top : ℤ), (right : ℤ), (bottom : ℤ)))).inf'
      hne Prod.snd = 0 := by
    have h0 : (contentSet (image.crop ((left : ℤ), (top : ℤ), (right : ℤ), (bottom : ℤ)))).inf'
        hne Prod.snd ≤ (pt.1 - left, (0 : ℕ)).2 := Finset.inf'_le _ m2
    simpa using h0
  have g3 : (contentSet (image.crop ((left : ℤ), (top : ℤ), (right : ℤ), (bottom : ℤ)))).sup'
      hne Prod.fst = right - 1 - left := by
    have hub : (contentSet (image.crop ((left : ℤ), (top : ℤ), (right : ℤ), (bottom : ℤ)))).sup'
        hne Prod.fst ≤ right - 1 - left := by
      rw [Finset.sup'_le_iff]
      rintro ⟨x, y⟩ hxy
      have hx := hmemS _ ((hmem x y).mp hxy)
      omega
    have hlb : (pr.1 - left, pr.2 - top).1 ≤ (contentSet
        (image.crop ((left : ℤ), (top : ℤ), (right : ℤ), (bottom : ℤ)))).sup' hne Prod.fst :=
      Finset.le_sup' _ m3
    simp only at hlb
    omega
  have g4 : (contentSet (image.crop ((left : ℤ), (top : ℤ), (right : ℤ), (bottom : ℤ)))).sup'
      hne Prod.snd = bottom - 1 - top := by
    have hub : (contentSet (image.crop ((left : ℤ), (top : ℤ), (right : ℤ), (bottom : ℤ)))).sup'
        hne Prod.snd ≤ bottom - 1 - top := by
      rw [Finset.sup'_le_iff]
      rintro ⟨x, y⟩ hxy
      have hx := hmemS _ ((hmem x y).mp hxy)
      omega
    have hlb : (pb.1 - left, pb.2 - top).2 ≤ (contentSet
        (image.crop ((left : ℤ), (top : ℤ), (right : ℤ), (bottom : ℤ)))).sup' hne Prod.snd :=
      Finset.le_sup' _ m4
    simp only at hlb
    omega
  rw [g1, g2, g3, g4]
  have e3 : right - 1 - left + 1 = right - left := by omega
  have e4 : bottom - 1 - top + 1 = bottom - top := by omega
  rw [e3, e4]

/-- Claim C6: with padding 0 the extract-and-crop operation of
`crop_to_content` is idempotent on any image with a non-empty content region:
the box re-extracted from the cropped result is the cropped image's full
extent, and cropping a second time changes nothing. -/
theorem crop_to_content_idempotent (image : PILImage)
    (h : (contentSet (toRGBA image)).Nonempty) :
    content_bbox (crop_to_content image 0) 0 =
      some (0, 0, ((crop_to_content image 0).width : ℤ),
            ((crop_to_content image 0).height : ℤ)) ∧
    crop_to_content (crop_to_content image 0) 0 = crop_to_content image 0 := by
  obtain ⟨l, t, r, b, hbox⟩ : ∃ l t r b,
      alphaGetbbox (toRGBA image) = some (l, t, r, b) := by
    unfold alphaGetbbox
    rw [dif_pos h]
    exact ⟨_, _, _, _, rfl⟩
  obtain ⟨hlr, htb, hrw, hbh⟩ := alphaGetbbox_bounds hbox
  have hcc : crop_to_content image 0 =
      (toRGBA image).crop ((l : ℤ), (t : ℤ), (r : ℤ), (b : ℤ)) := by
    simp only [crop_to_content, content_bbox, hbox]
    norm_num
  have hmodeC : (crop_to_content image 0).mode = Mode.RGBA := by
    rw [hcc]
    have : ((toRGBA image).crop ((l : ℤ), (t : ℤ), (r : ℤ), (b : ℤ))).mode
        = (toRGBA image).mode := rfl
    rw [this, toRGBA_mode]
  have hkey := alphaGetbbox_crop hbox
  have hid : toRGBA (crop_to_content image 0) = crop_to_content image 0 :=
    toRGBA_of_rgba hmodeC
  have hW : (crop_to_content image 0).width = r - l := by
    rw [hcc]
    simp only [PILImage.crop]
    omega
  have hH : (crop_to_content image 0).height = b - t := by
    rw [hcc]
    simp only [PILImage.crop]
    omega
  have hbox2 : alphaGetbbox (toRGBA (crop_to_content image 0)) = some (0, 0, r - l, b - t) := by
    rw [hid, hcc]
    exact hkey
  have hcb : content_bbox (crop_to_content image 0) 0 =
      some (0, 0, ((r - l : ℕ) : ℤ), ((b - t : ℕ) : ℤ)) := by
    simp only [content_bbox, hbox2]
    norm_num
  constructor
  · rw [hcb, hW, hH]
  · generalize hA : crop_to_content image 0 = A at hid hcb hW hH
    calc crop_to_content A 0 = A.crop (0, 0, (A.width : ℤ), (A.height : ℤ)) := by
          simp only [crop_to_content, hid, hcb, hW, hH]
      _ = A := crop_full A

/-- A second copy of the 3x3 single-dot image, used as the concrete instance
for the idempotence claim. -/
def dot3b : PILImage :=
  { width := 3, height := 3, mode := Mode.RGBA,
    pix := fun x y => if x = 1 ∧ y = 1 then ⟨9, 9, 9, 200⟩ else ⟨0, 0, 0, 0⟩ }

theorem crop_to_content_idempotent_witness :
    (contentSet (toRGBA dot3b)).Nonempty ∧
    (content_bbox (crop_to_content dot3b 0) 0 =
       some (0, 0, ((crop_to_content dot3b 0).width : ℤ),
             ((crop_to_content dot3b 0).height : ℤ)) ∧
     crop_to_content (crop_to_content dot3b 0) 0 = crop_to_content dot3b 0) :=
  ⟨by decide, crop_to_content_idempotent dot3b (by decide)⟩

/-- Round a rational to the nearest integer, ties to even (the IEEE-754
rounding of a scaled significand). -/
def rne (x : ℚ) : ℤ :=
  if x - ⌊x⌋ < 1 / 2 then ⌊x⌋
  else if 1 / 2 < x - ⌊x⌋ then ⌊x⌋ + 1
  else if ⌊x⌋ % 2 = 0 then ⌊x⌋ else ⌊x⌋ + 1

/-- The IEEE-754 binary64 value nearest a nonnegative rational, modelled
exactly over `ℚ` in the normal range: the 53-bit significand is obtained by
rounding `q / 2^(exponent - 52)` to the nearest integer, ties to even.
CPython floats are binary64, and its int-to-float conversion, `/` and `*` are
each correctly rounded, i.e. each result is `fl` of the exact rational
value. -/
def fl (q : ℚ) : ℚ :=
  if q ≤ 0 then 0
  else (rne (q * 2 ^ ((52 : ℤ) - Int.log 2 q)) : ℚ) * 2 ^ (Int.log 2 q - 52)

theorem rne_eq_floor (x : ℚ) (h : x - ⌊x⌋ < 1 / 2) : rne x = ⌊x⌋ := by
  unfold rne
  rw [if_pos h]

/-- Evaluation rule for `fl` when the scaled significand rounds down:
`q` lies in the binade `[2^e, 2^(e+1))` and `q·2^(52-e)` lies in
`[m, m + 1/2)`. -/
theorem fl_eval (q : ℚ) (e m : ℤ)
    (h1 : 2 ^ e ≤ q) (h2 : q < 2 ^ (e + 1))
    (h3 : (m : ℚ) ≤ q * 2 ^ ((52 : ℤ) - e))
    (h4 : q * 2 ^ ((52 : ℤ) - e) < (m : ℚ) + 1 / 2) :
    fl q = (m : ℚ) * 2 ^ (e - 52) := by
  have hq : 0 < q := lt_of_lt_of_le (by positivity) h1
  have hlog : Int.log 2 q = e := by
    have hle : e ≤ Int.log 2 q := (Int.zpow_le_iff_le_log (by norm_num) hq).mp h1
    have hlt : Int.log 2 q < e + 1 := (Int.lt_zpow_iff_log_lt (by norm_num) hq).mp h2
    omega
  have hfloor : ⌊q * 2 ^ ((52 : ℤ) - e)⌋ = m :=
    Int.floor_eq_iff.mpr ⟨h3, lt_trans h4 (by linarith)⟩
  have hfrac : q * 2 ^ ((52 : ℤ) - e) - ⌊q * 2 ^ ((52 : ℤ) - e)⌋ < 1 / 2 := by
    rw [hfloor]
    linarith
  have hr : rne (q * 2 ^ ((52 : ℤ) - e)) = m := by
    rw [rne_eq_floor _ hfrac, hfloor]
  unfold fl
  rw [if_neg (not_le.mpr hq), hlog, hr]

/-- A rational in the binade `[2^e, 2^(e+1))` whose scaled significand is an
integer is a binary64 value: `fl` fixes it. -/
theorem fl_exact (q : ℚ) (e m : ℤ)
    (h1 : 2 ^ e ≤ q) (h2 : q < 2 ^ (e + 1))
    (hm : q * 2 ^ ((52 : ℤ) - e) = (m : ℚ)) :
    fl q = q := by
  have := fl_eval q e m h1 h2 (le_of_eq hm.symm) (by rw [hm]; linarith)
  rw [this, ← hm, mul_assoc, ← zpow_add₀ (by norm_num : (2 : ℚ) ≠ 0)]
  have he : (52 : ℤ) - e + (e - 52) = 0 := by ring
  rw [he, zpow_zero, mul_one]

/-- CPython int-to-float conversion: the binary64 value nearest the integer. -/
def floatOfNat (n : ℕ) : ℚ := fl n

/-- `compose_images.resize_object_with_height` (lines 64-71).  The float steps
`ratio = target_height / obj_height` and `obj_width * ratio` are correctly
rounded binary64 operations (`fl` after each), and `int(...)` truncates the
nonnegative result toward zero, i.e. takes the floor. -/
def resize_object_with_height (obj_image : PILImage) (target_height : ℕ) : PILImage :=
  let ratio : ℚ := fl (floatOfNat target_height / floatOfNat obj_image.height)
  let new_width : ℕ := ⌊fl (floatOfNat obj_image.width * ratio)⌋.toNat
  obj_image.resize new_width target_height

theorem fl_one : fl (1 : ℚ) = 1 :=
  fl_exact 1 0 4503599627370496 (by norm_num) (by norm_num) (by norm_num)

theorem fl_49 : fl (49 : ℚ) = 49 :=
  fl_exact 49 5 6896136929411072 (by norm_num) (by norm_num) (by norm_num)

theorem fl_100 : fl (100 : ℚ) = 100 :=
  fl_exact 100 6 7036874417766400 (by norm_num) (by norm_num) (by norm_num)

theorem fl_200 : fl (200 : ℚ) = 200 :=
  fl_exact 200 7 7036874417766400 (by norm_num) (by norm_num) (by norm_num)

theorem fl_half : fl (1 / 2 : ℚ) = 1 / 2 :=
  fl_exact (1 / 2) (-1) 4503599627370496 (by norm_num) (by norm_num) (by norm_num)

theorem fl_50 : fl (50 : ℚ) = 50 :=
  fl_exact 50 5 7036874417766400 (by norm_num) (by norm_num) (by norm_num)

/-- The binary64 value of `1/49` falls just below the exact quotient. -/
theorem fl_inv49 : fl (1 / 49 : ℚ) = 5882252574524729 / 288230376151711744 := by
  have := fl_eval (1 / 49) (-6) 5882252574524729
    (by norm_num) (by norm_num) (by norm_num) (by norm_num)
  rw [this]
  norm_num

/-- Multiplying back by 49 stays just below 1: the classic
`49 * (1 / 49) < 1` double-precision identity failure. -/
theorem fl_49_mul_inv49 :
    fl ((49 : ℚ) * (5882252574524729 / 288230376151711744)) =
      9007199254740991 / 9007199254740992 := by
  have := fl_eval ((49 : ℚ) * (5882252574524729 / 288230376151711744)) (-1) 9007199254740991
    (by norm_num) (by norm_num) (by norm_num) (by norm_num)
  rw [this]
  norm_num

theorem floatOfNat_one : floatOfNat 1 = 1 := by
  have : ((1 : ℕ) : ℚ) = 1 := by norm_num
  rw [floatOfNat, this, fl_one]

theorem floatOfNat_49 : floatOfNat 49 = 49 := by
  have : ((49 : ℕ) : ℚ) = 49 := by norm_num
  rw [floatOfNat, this, fl_49]

theorem floatOfNat_50 : floatOfNat 50 = 50 := by
  have : ((50 : ℕ) : ℚ) = 50 := by norm_num
  rw [floatOfNat, this, fl_50]

theorem floatOfNat_100 : floatOfNat 100 = 100 := by
  have : ((100 : ℕ) : ℚ) = 100 := by norm_num
  rw [floatOfNat, this, fl_100]

theorem floatOfNat_200 : floatOfNat 200 = 200 := by
  have : ((200 : ℕ) : ℚ) = 200 := by norm_num
  rw [floatOfNat, this, fl_200]

/-- A concrete 49x49 fully opaque RGBA object image. -/
def obj49 : PILImage :=
  { width := 49, height := 49, mode := Mode.RGBA, pix := fun _ _ => ⟨1, 2, 3, 255⟩ }

/-- A concrete 200x100 fully opaque RGBA object image. -/
def obj200 : PILImage :=
  { width := 200, height := 100, mode := Mode.RGBA, pix := fun _ _ => ⟨1, 2, 3, 255⟩ }

/-- A concrete 1x100 RGBA object image. -/
def thin1 : PILImage :=
  { width := 1, height := 100, mode := Mode.RGBA, pix := fun _ _ => ⟨1, 2, 3, 255⟩ }

/-- Claim C4, counterexample: the output width is NOT always the exactly
computed `floor(objW * H / objH)`.  For a 49x49 image at target height 1 the
code evaluates `int(49 * (1/49))` in binary64, and `49 * fl(1/49)` rounds to
`0.99999999999999988...`, so the width is 0, while the exact value is
`floor(49 * 1 / 49) = 1`. -/
theorem resize_object_with_height_width_not_exact :
    (resize_object_with_height obj49 1).width = 0 ∧ (0 : ℕ) ≠ 49 * 1 / 49 := by
  constructor
  · show (⌊fl (floatOfNat 49 * fl (floatOfNat 1 / floatOfNat 49))⌋).toNat = 0
    rw [floatOfNat_one, floatOfNat_49, fl_inv49, fl_49_mul_inv49]
    have : ⌊(9007199254740991 : ℚ) / 9007199254740992⌋ = 0 := by norm_num
    rw [this]
    rfl
  · decide

/-- Claim C4, amended: `resize_object_with_height` always returns height
exactly `target_height`, and the width is objW scaled by the binary64 value of
`target_height / objH` and truncated — equal to the exact
`floor(objW * H / objH)` in the spec's scenario (200x100 at target height 50
gives 100x50) but able to fall one below it under float rounding (49x49 at
height 1 gives width 0). -/
theorem resize_object_with_height_spec :
    (∀ (obj_image : PILImage) (target_height : ℕ), 0 < obj_image.height →
        (resize_object_with_height obj_image target_height).height = target_height) ∧
    (resize_object_with_height obj200 50).width = 100 ∧
    (resize_object_with_height obj200 50).height = 50 ∧
    (resize_object_with_height obj49 1).width = 0 := by
  refine ⟨fun obj_image target_height h => rfl, ?_, rfl, ?_⟩
  · show (⌊fl (floatOfNat 200 * fl (floatOfNat 50 / floatOfNat 100))⌋).toNat = 100
    rw [floatOfNat_50, floatOfNat_100, floatOfNat_200]
    have e1 : (50 : ℚ) / 100 = 1 / 2 := by norm_num
    rw [e1, fl_half]
    have e2 : (200 : ℚ) * (1 / 2) = 100 := by norm_num
    rw [e2, fl_100]
    have : ⌊(100 : ℚ)⌋ = 100 := by norm_num
    rw [this]
    rfl
  · show (⌊fl (floatOfNat 49 * fl (floatOfNat 1 / floatOfNat 49))⌋).toNat = 0
    rw [floatOfNat_one, floatOfNat_49, fl_inv49, fl_49_mul_inv49]
    have : ⌊(9007199254740991 : ℚ) / 9007199254740992⌋ = 0 := by norm_num
    rw [this]
    rfl

theorem resize_object_with_height_spec_witness :
    0 < obj200.height ∧ (resize_object_with_height obj200 7).height = 7 :=
  ⟨by decide, resize_object_with_height_spec.1 obj200 7 (by decide)⟩

/-- Claim C10: the code enforces no minimum object width: a 1x100 object
scaled to target height 50 gets new width `int(1 * 0.5) = 0`, i.e.
`resize_object_with_height` requests a degenerate zero-width resize. -/
theorem resize_object_with_height_zero_width :
    (resize_object_with_height thin1 50).width = 0 ∧
    (resize_object_with_height thin1 50).height = 50 := by
  refine ⟨?_, rfl⟩
  show (⌊fl (floatOfNat 1 * fl (floatOfNat 50 / floatOfNat 100))⌋).toNat = 0
  rw [floatOfNat_one, floatOfNat_50, floatOfNat_100]
  have e1 : (50 : ℚ) / 100 = 1 / 2 := by norm_num
  rw [e1, fl_half]
  have e2 : (1 : ℚ) * (1 / 2) = 1 / 2 := by norm_num
  rw [e2, fl_half]
  have : ⌊(1 / 2 : ℚ)⌋ = 0 := by norm_num
  rw [this]
  rfl

/-- A default image value for out-of-range store reads. -/
def emptyImage : PILImage :=
  { width := 0, height := 0, mode := Mode.RGBA, pix := fun _ _ => ⟨0, 0, 0, 0⟩ }

/-- PIL image objects are mutable Python values.  A `Store` maps object
references (in allocation order) to their current image value, so in-place
operations such as `paste` are distinguishable from operations that return
fresh objects (`convert`, `copy`). -/
abbrev Store := List PILImage

def Store.read (σ : Store) (r : ℕ) : PILImage := σ.getD r emptyImage

def Store.alloc (σ : Store) (image : PILImage) : Store × ℕ := (σ ++ [image], σ.length)

def Store.write (σ : Store) (r : ℕ) (image : PILImage) : Store := σ.set r image

theorem Store.length_alloc (σ : Store) (image : PILImage) :
    (σ.alloc image).1.length = σ.length + 1 := by
  simp [Store.alloc]

theorem Store.length_write (σ : Store) (r : ℕ) (image : PILImage) :
    (σ.write r image).length = σ.length := by
  simp [Store.write]

theorem Store.read_alloc_lt (σ : Store) (image : PILImage) :
    ∀ {r : ℕ}, r < σ.length → (σ.alloc image).1.read r = σ.read r := by
  unfold Store.alloc Store.read
  induction σ with
  | nil =>
    intro r h
    simp at h
  | cons a as ih =>
    intro r h
    cases r with
    | zero => rfl
    | succ n =>
      simp only [List.cons_append, List.getD_cons_succ]
      exact ih (by simp at h; omega)

theorem Store.read_alloc_self (σ : Store) (image : PILImage) :
    (σ.alloc image).1.read (σ.alloc image).2 = image := by
  unfold Store.alloc Store.read
  induction σ with
  | nil => rfl
  | cons a as ih => simpa using ih

theorem Store.read_write_ne (σ : Store) :
    ∀ (w : ℕ) (image : PILImage) (r : ℕ), r ≠ w →
      (σ.write w image).read r = σ.read r := by
  unfold Store.write Store.read
  induction σ with
  | nil =>
    intro w image r h
    rfl
  | cons a as ih =>
    intro w image r h
    cases w with
    | zero =>
      cases r with
      | zero => exact absurd rfl h
      | succ n => rfl
    | succ m =>
      cases r with
      | zero => rfl
      | succ n =>
        simp only [List.set_cons_succ, List.getD_cons_succ]
        exact ih m image n (by omega)

/-- The `if image.mode != "RGBA": image = image.convert("RGBA")` steps of
`composite_images` (lines 118-123) at the object level: converting allocates a
new image object and rebinds the local name; an already-RGBA image stays
aliased. -/
def ensureRGBA (σ : Store) (r : ℕ) : Store × ℕ :=
  if (σ.read r).mode ≠ Mode.RGBA then σ.alloc (σ.read r).convertRGBA else (σ, r)

theorem ensureRGBA_length (σ : Store) (r : ℕ) :
    σ.length ≤ (ensureRGBA σ r).1.length := by
  unfold ensureRGBA
  split
  · rw [Store.length_alloc]
    omega
  · exact le_refl _

theorem ensureRGBA_read_lt (σ : Store) (r : ℕ) {s : ℕ} (h : s < σ.length) :
    (ensureRGBA σ r).1.read s = σ.read s := by
  unfold ensureRGBA
  split
  · exact Store.read_alloc_lt σ _ h
  · rfl

/-- The image value `composite_images` actually works with after the RGBA
coercion is `toRGBA` of the referenced image. -/
theorem ensureRGBA_val (σ : Store) (r : ℕ) :
    (ensureRGBA σ r).1.read (ensureRGBA σ r).2 = toRGBA (σ.read r) := by
  unfold ensureRGBA toRGBA
  split
  · exact Store.read_alloc_self σ _
  · rfl

/-- The paste rectangle of `composite_images`: origin
`(center_x - objW // 2, center_y - objH // 2)` (lines 127-129), extended by
the object's size.  It depends only on the object's dimensions, never on its
pixel content. -/
def paste_box (obj_image : PILImage) (center_x center_y : ℤ) : ℤ × ℤ × ℤ × ℤ :=
  let left := center_x - ((obj_image.width / 2 : ℕ) : ℤ)
  let top := center_y - ((obj_image.height / 2 : ℕ) : ℤ)
  (left, top, left + (obj_image.width : ℤ), top + (obj_image.height : ℤ))

/-- One channel of PIL's alpha blend; PIL's exact fixed-point rounding is
abstracted (no claim depends on blended channel values). -/
def blendChannel (src dst alpha : ℕ) : ℕ := (src * alpha + dst * (255 - alpha)) / 255

/-- PIL `result.paste(obj, (left, top), obj)`: blend the source over the
destination inside the paste rectangle using the source's alpha band as mask;
pixels outside the rectangle (including out-of-canvas clipping) stay. -/
def PILImage.paste (dest src : PILImage) (left top : ℤ) : PILImage :=
  { dest with pix := fun x y =>
      if 0 ≤ (x : ℤ) - left ∧ (x : ℤ) - left < (src.width : ℤ) ∧
         0 ≤ (y : ℤ) - top ∧ (y : ℤ) - top < (src.height : ℤ) then
        let s := src.pix ((x : ℤ) - left).toNat ((y : ℤ) - top).toNat
        let d := dest.pix x y
        ⟨blendChannel s.r d.r s.a, blendChannel s.g d.g s.a,
         blendChannel s.b d.b s.a, blendChannel s.a d.a s.a⟩
      else dest.pix x y }

/-- `compose_images.composite_images` (lines 113-138), over the image store:
coerce both images to RGBA (each conversion creates a new object), copy the
background, paste the object in place onto the copy using the object's own
alpha as the mask, and return a new flattened RGB image.  The reference handed
in as the background is never written. -/
def composite_images (σ : Store) (backgroundRef objRef : ℕ) (center_x center_y : ℤ) :
    Store × ℕ :=
  let s₁ := ensureRGBA σ backgroundRef
  let s₂ := ensureRGBA s₁.1 objRef
  let obj_image := s₂.1.read s₂.2
  let box := paste_box obj_image center_x center_y
  let s₃ := s₂.1.alloc (s₂.1.read s₁.2)
  let σ₄ := s₃.1.write s₃.2 ((s₃.1.read s₃.2).paste obj_image box.1 box.2.1)
  let s₅ := σ₄.alloc ((σ₄.read s₃.2).convertRGB)
  (s₅.1, s₅.2)

/-- Claim C9: `composite_images` never mutates the caller's background object:
after the call the background reference still holds the very same image value
(mode, size and pixels).  The only in-place operation, `paste`, targets the
fresh copy of the background, and the conversions allocate new objects. -/
theorem composite_images_preserves_background (σ : Store) (backgroundRef objRef : ℕ)
    (center_x center_y : ℤ) (h : backgroundRef < σ.length) :
    ((composite_images σ backgroundRef objRef center_x center_y).1).read backgroundRef
      = σ.read backgroundRef := by
  have l1 : backgroundRef < (ensureRGBA σ backgroundRef).1.length :=
    lt_of_lt_of_le h (ensureRGBA_length σ backgroundRef)
  have l2 : backgroundRef < (ensureRGBA (ensureRGBA σ backgroundRef).1 objRef).1.length :=
    lt_of_lt_of_le l1 (ensureRGBA_length _ objRef)
  unfold composite_images
  dsimp only
  rw [Store.read_alloc_lt _ _ (by rw [Store.length_write, Store.length_alloc]; omega)]
  rw [Store.read_write_ne _ _ _ _ (by simp only [Store.alloc]; omega)]
  rw [Store.read_alloc_lt _ _ l2]
  rw [ensureRGBA_read_lt _ _ l1]
  rw [ensureRGBA_read_lt _ _ h]

/-- A concrete two-image store: slot 0 a 4x4 RGB background, slot 1 the 3x3
dot object. -/
def store2 : Store :=
  [{ width := 4, height := 4, mode := Mode.RGB, pix := fun _ _ => ⟨7, 7, 7, 255⟩ }, dot3]

theorem composite_images_preserves_background_witness :
    0 < store2.length ∧
    ((composite_images store2 0 1 2 2).1).read 0 = store2.read 0 :=
  ⟨by decide, composite_images_preserves_background store2 0 1 2 2 (by decide)⟩

/-- The bounding box recorded by `main` for each composite
(`compose_images.py` lines 278-282). -/
def main_bbox (center_x center_y : ℤ) (obj_width obj_height : ℕ) : ℤ × ℤ × ℤ × ℤ :=
  let bbox_left := center_x - ((obj_width / 2 : ℕ) : ℤ)
  let bbox_top := center_y - ((obj_height / 2 : ℕ) : ℤ)
  (bbox_left, bbox_top, bbox_left + (obj_width : ℤ), bbox_top + (obj_height : ℤ))

/-- Claim C8: the recorded bounding box is exactly the paste rectangle.
`main` derives it from the same center and object size with the same floor
division `objW // 2` as the paste origin of `composite_images` (whose RGBA
coercion preserves the size), and it equals
`(cx - objW//2, cy - objH//2, cx - objW//2 + objW, cy - objH//2 + objH)` for
every object image — independent of the object's pixels, hence of any
transparency inside the pasted content. -/
theorem main_bbox_eq_paste_box (σ : Store) (objRef : ℕ) (center_x center_y : ℤ) :
    main_bbox center_x center_y (σ.read objRef).width (σ.read objRef).height =
      paste_box ((ensureRGBA σ objRef).1.read (ensureRGBA σ objRef).2) center_x center_y ∧
    main_bbox center_x center_y (σ.read objRef).width (σ.read objRef).height =
      (center_x - (((σ.read objRef).width / 2 : ℕ) : ℤ),
       center_y - (((σ.read objRef).height / 2 : ℕ) : ℤ),
       center_x - (((σ.read objRef).width / 2 : ℕ) : ℤ) + ((σ.read objRef).width : ℤ),
       center_y - (((σ.read objRef).height / 2 : ℕ) : ℤ) + ((σ.read objRef).height : ℤ)) := by
  constructor
  · rw [ensureRGBA_val]
    unfold main_bbox paste_box
    rw [toRGBA_width, toRGBA_height]
  · rfl

end CvHelper
